import Mathlib

/-!
# Verification of the CosmicDance Dst-index window core

Shallow embedding of `src/cosmic_dance/dst_index.py`: the threshold-crossing
window extractors (`extract_timespan_above_nT_intensity`,
`extract_timespan_below_nT_intensity`, `extract_timespan_between_nT_intensity`),
the window merger (`merge_window`) and the duration column
(`add_window_duration`), together with theorems settling the specification
claims about them.

Modelling conventions:
* Timestamps (`pd.Timestamp`) are rationals measured in days, so that
  `(x - y) / pd.Timedelta(days=1)` becomes plain subtraction `x - y` and
  `(x - y) / pd.Timedelta(hours=1)` becomes `(x - y) * 24`.
* Intensities (`nT`, floats in the source) are rationals.
* The DataFrame rows that the extractors read and the window records they
  produce become Lean structures `Sample` and `Window`.
* Each Python scan loop becomes a `List.foldl` of a step function that mirrors
  the loop body statement by statement.
-/

/-- One row of the Dst-index time series: a `TIMESTAMP` and an intensity
`nT` value, as consumed by `zip(df[DST.TIMESTAMP], df[DST.NANOTESLA])`. -/
structure Sample where
  timestamp : ℚ
  nT : ℚ
deriving DecidableEq, Repr

/-- One extracted window record `{STARTTIME: ..., ENDTIME: ...}`. -/
structure Window where
  STARTTIME : ℚ
  ENDTIME : ℚ
deriving DecidableEq, Repr

/-- Loop state of `extract_timespan_above_nT_intensity` /
`extract_timespan_below_nT_intensity`: the accumulated
`active_time_records` list and the two locals `stime` and `etime`. -/
structure ScanState where
  records : List Window
  stime : Option ℚ
  etime : Option ℚ
deriving DecidableEq, Repr

/-- One iteration of the loop of `extract_timespan_above_nT_intensity`
(dst_index.py lines 152-174):
`if (nT > THRESHOLD) and (stime is None): stime = timestamp`,
`elif (nT < THRESHOLD) and (stime is not None) and (etime is None): etime = timestamp`,
then `if (stime is not None) and (etime is not None):` record the window and
reset `stime, etime = None, None`. -/
def extract_step_above (THRESHOLD : ℚ) (st : ScanState) (s : Sample) : ScanState :=
  let se : Option ℚ × Option ℚ :=
    if THRESHOLD < s.nT ∧ st.stime = none then (some s.timestamp, st.etime)
    else if s.nT < THRESHOLD ∧ st.stime ≠ none ∧ st.etime = none then
      (st.stime, some s.timestamp)
    else (st.stime, st.etime)
  match se with
  | (some a, some b) => ⟨st.records ++ [⟨a, b⟩], none, none⟩
  | (stime, etime) => ⟨st.records, stime, etime⟩

/-- `extract_timespan_above_nT_intensity(df, THRESHOLD)` (dst_index.py
lines 132-176): fold the loop body over the series, return the recorded
windows. -/
def extract_timespan_above_nT_intensity (df : List Sample) (THRESHOLD : ℚ) :
    List Window :=
  (df.foldl (extract_step_above THRESHOLD) ⟨[], none, none⟩).records

/-- One iteration of the loop of `extract_timespan_below_nT_intensity`
(dst_index.py lines 199-221): identical to the above-threshold loop with the
two guards swapped (`nT < THRESHOLD` opens, `nT > THRESHOLD` closes). -/
def extract_step_below (THRESHOLD : ℚ) (st : ScanState) (s : Sample) : ScanState :=
  let se : Option ℚ × Option ℚ :=
    if s.nT < THRESHOLD ∧ st.stime = none then (some s.timestamp, st.etime)
    else if THRESHOLD < s.nT ∧ st.stime ≠ none ∧ st.etime = none then
      (st.stime, some s.timestamp)
    else (st.stime, st.etime)
  match se with
  | (some a, some b) => ⟨st.records ++ [⟨a, b⟩], none, none⟩
  | (stime, etime) => ⟨st.records, stime, etime⟩

/-- `extract_timespan_below_nT_intensity(df, THRESHOLD)` (dst_index.py
lines 179-223). -/
def extract_timespan_below_nT_intensity (df : List Sample) (THRESHOLD : ℚ) :
    List Window :=
  (df.foldl (extract_step_below THRESHOLD) ⟨[], none, none⟩).records

/-- The nested helper `in_range(v)` of `extract_timespan_between_nT_intensity`
(dst_index.py lines 244-250): `lb <= v and v <= ub`, returned as a Boolean. -/
def in_range (lb ub v : ℚ) : Bool :=
  if lb ≤ v ∧ v ≤ ub then true else false

/-- Loop state of `extract_timespan_between_nT_intensity`: as `ScanState`,
plus the loop-carried local `_timestamp` (the previous sample's timestamp),
which is unbound (`none`) before the first iteration. -/
structure ScanStateB where
  records : List Window
  stime : Option ℚ
  etime : Option ℚ
  prev : Option ℚ
deriving DecidableEq, Repr

/-- One iteration of the loop of `extract_timespan_between_nT_intensity`
(dst_index.py lines 257-277). The close branch assigns `etime = _timestamp`,
the PREVIOUS sample's timestamp (the commented-out `etime = timestamp` is the
current-sample variant). In Python, reading `_timestamp` on the first
iteration would be a NameError; that branch also requires `stime is not None`,
which cannot hold on the first iteration, so in every reachable run
`st.prev` is `some` when read (the model copies the `none` harmlessly).
After the body, `_timestamp = timestamp` updates the carried local. -/
def extract_step_between (lb ub : ℚ) (st : ScanStateB) (s : Sample) : ScanStateB :=
  let se : Option ℚ × Option ℚ :=
    if in_range lb ub s.nT = true ∧ st.stime = none then (some s.timestamp, st.etime)
    else if in_range lb ub s.nT = false ∧ st.stime ≠ none ∧ st.etime = none then
      (st.stime, st.prev)
    else (st.stime, st.etime)
  match se with
  | (some a, some b) => ⟨st.records ++ [⟨a, b⟩], none, none, some s.timestamp⟩
  | (stime, etime) => ⟨st.records, stime, etime, some s.timestamp⟩

/-- `extract_timespan_between_nT_intensity(df, lb, ub)` (dst_index.py
lines 226-279). -/
def extract_timespan_between_nT_intensity (df : List Sample) (lb ub : ℚ) :
    List Window :=
  (df.foldl (extract_step_between lb ub) ⟨[], none, none, none⟩).records

-- Sanity checks of the embedding on concrete runs.
example :
    extract_timespan_above_nT_intensity
      [⟨0, 5⟩, ⟨1, 15⟩, ⟨2, 20⟩, ⟨3, 8⟩, ⟨4, 3⟩] 10 = [⟨1, 3⟩] := by decide

example :
    extract_timespan_between_nT_intensity
      [⟨0, 5⟩, ⟨1, 15⟩, ⟨2, 20⟩, ⟨3, 8⟩, ⟨4, 30⟩] 10 20 = [⟨1, 2⟩] := by decide

/-- One iteration of the loop of `merge_window` (dst_index.py lines 90-105).
The Python list `merge_events` (appended at the back, last element mutated)
is modelled REVERSED: the head of `acc` is `merge_events[-1]`.
Body: `if len(merge_events) == 0: merge_events.append(event)`; then
`time_diff = (event[STARTTIME] - merge_events[-1][ENDTIME]) / Timedelta(days=1)`;
`if time_diff < days: merge_events[-1][ENDTIME] = event[ENDTIME]`
`else: merge_events.append(event)`.
In the empty case the event is appended first and then compared against
itself: if `event.STARTTIME - event.ENDTIME < days` the self-assignment of its
own `ENDTIME` leaves the singleton list unchanged, otherwise the event is
appended a second time. -/
def merge_step (days : ℚ) (acc : List Window) (event : Window) : List Window :=
  match acc with
  | [] =>
      if event.STARTTIME - event.ENDTIME < days then [event]
      else [event, event]
  | last :: rest =>
      if event.STARTTIME - last.ENDTIME < days then
        ⟨last.STARTTIME, event.ENDTIME⟩ :: rest
      else event :: last :: rest

/-- The record-merging core of `merge_window(df, days)` (dst_index.py
lines 87-108): fold the loop body over the event records and read the
accumulator back in insertion order. -/
def merge_window (df : List Window) (days : ℚ) : List Window :=
  (df.foldl (merge_step days) []).reverse

/-- `DURATION_HOURS` of one window:
`(df[ENDTIME] - df[STARTTIME]) / pd.Timedelta(hours=1)` with timestamps in
days (dst_index.py lines 125-127). -/
def duration_hours (w : Window) : ℚ := (w.ENDTIME - w.STARTTIME) * 24

/-- A window DataFrame: the `STARTTIME`/`ENDTIME` rows plus the optional
`DURATION_HOURS` column (absent when the column does not exist). -/
structure WindowTable where
  rows : List Window
  durations : Option (List ℚ)
deriving DecidableEq, Repr

/-- A pandas `KeyError`, raised when a missing column is deleted or read. -/
inductive PdError where
  | keyError : PdError
deriving DecidableEq, Repr

/-- `add_window_duration(df)` (dst_index.py lines 112-129): writes the
`DURATION_HOURS` column into its argument in place and returns the mutated
argument. Reading `df[ENDTIME] - df[STARTTIME]` raises a `KeyError` when the
frame has no such columns (as happens for `pd.DataFrame.from_dict([])`);
`hasWindowCols` says whether they exist. -/
def add_window_duration (rows : List Window) (hasWindowCols : Bool) :
    Except PdError WindowTable :=
  if hasWindowCols then
    .ok ⟨rows, some (rows.map duration_hours)⟩
  else
    .error .keyError

/-- `merge_window(df, days)` at DataFrame level, with the in-place effects of
the source made explicit by state passing: the first component is the final
state of the CALLER's DataFrame `df`, the second the returned frame (or the
raised error).
Steps of dst_index.py lines 63-109:
1. `del df[DST.DURATION_HOURS]` — mutates the input; `KeyError` if absent
   (then `df` is left unchanged);
2. `events = df.to_dict(orient='records')` — fresh record dicts;
3. the merge loop (`merge_window` above);
4. `df = pd.DataFrame.from_dict(merge_events)` — a frame WITHOUT the
   `STARTTIME`/`ENDTIME` columns when `merge_events` is empty;
5. `return add_window_duration(df)`. -/
def merge_window_tbl (df : WindowTable) (days : ℚ) :
    WindowTable × Except PdError WindowTable :=
  match df.durations with
  | none => (df, .error .keyError)
  | some _ =>
      let df1 : WindowTable := ⟨df.rows, none⟩
      let merged := merge_window df1.rows days
      (df1, add_window_duration merged (!merged.isEmpty))

-- Sanity checks of the merge embedding.
example : merge_window [⟨0, 1⟩, ⟨3, 4⟩] 3 = [⟨0, 4⟩] := by
  norm_num [merge_window, merge_step]
example : merge_window [⟨0, 1⟩, ⟨3, 4⟩] 1 = [⟨0, 1⟩, ⟨3, 4⟩] := by
  norm_num [merge_window, merge_step]
example : merge_window [⟨0, 0⟩] 0 = [⟨0, 0⟩, ⟨0, 0⟩] := by
  norm_num [merge_window, merge_step]

/-! ## Predicates on windows -/

/-- The `TimeWindow` invariant `start <= end`. -/
def Valid (w : Window) : Prop := w.STARTTIME ≤ w.ENDTIME

instance (w : Window) : Decidable (Valid w) :=
  inferInstanceAs (Decidable (w.STARTTIME ≤ w.ENDTIME))

/-- Sorted ascending by start time. -/
def start_le (a b : Window) : Prop := a.STARTTIME ≤ b.STARTTIME

instance : DecidableRel start_le := fun a b =>
  inferInstanceAs (Decidable (a.STARTTIME ≤ b.STARTTIME))

/-- `a` ends no later than `b` starts: consecutive windows are disjoint in
time, as the extractors produce them. -/
def chained (a b : Window) : Prop := a.ENDTIME ≤ b.STARTTIME

instance : DecidableRel chained := fun a b =>
  inferInstanceAs (Decidable (a.ENDTIME ≤ b.STARTTIME))

/-- `b` starts at least `g` days after `a` ends (the separation `merge_window`
guarantees between consecutive output windows). -/
def gap_ge (g : ℚ) (a b : Window) : Prop := g ≤ b.STARTTIME - a.ENDTIME

instance (g : ℚ) : DecidableRel (gap_ge g) := fun a b =>
  inferInstanceAs (Decidable (g ≤ b.STARTTIME - a.ENDTIME))

/-- `W` is a superset of `w` by time extent. -/
def Covers (W w : Window) : Prop :=
  W.STARTTIME ≤ w.STARTTIME ∧ w.ENDTIME ≤ W.ENDTIME

instance (W w : Window) : Decidable (Covers W w) :=
  inferInstanceAs (Decidable (_ ∧ _))

/-! ## Step-characterization lemmas for the extractors -/

/-- The above-threshold loop body from the idle state: a sample opens a window
exactly when `nT > THRESHOLD`. -/
theorem step_above_idle (T : ℚ) (st : Sample) (recs : List Window) :
    extract_step_above T ⟨recs, none, none⟩ st =
      if T < st.nT then ⟨recs, some st.timestamp, none⟩
      else ⟨recs, none, none⟩ := by
  simp only [extract_step_above]
  split_ifs with h1 h2 <;> simp_all

/-- The above-threshold loop body from an open state: the sample closes (and
emits) the window exactly when `nT < THRESHOLD` — strictly below. -/
theorem step_above_open (T s : ℚ) (st : Sample) (recs : List Window) :
    extract_step_above T ⟨recs, some s, none⟩ st =
      if st.nT < T then ⟨recs ++ [⟨s, st.timestamp⟩], none, none⟩
      else ⟨recs, some s, none⟩ := by
  simp only [extract_step_above]
  split_ifs with h1 h2 <;> simp_all

/-- The below-threshold loop body from the idle state. -/
theorem step_below_idle (T : ℚ) (st : Sample) (recs : List Window) :
    extract_step_below T ⟨recs, none, none⟩ st =
      if st.nT < T then ⟨recs, some st.timestamp, none⟩
      else ⟨recs, none, none⟩ := by
  simp only [extract_step_below]
  split_ifs with h1 h2 <;> simp_all

/-- The below-threshold loop body from an open state: closes exactly when
`nT > THRESHOLD` — strictly above. -/
theorem step_below_open (T s : ℚ) (st : Sample) (recs : List Window) :
    extract_step_below T ⟨recs, some s, none⟩ st =
      if T < st.nT then ⟨recs ++ [⟨s, st.timestamp⟩], none, none⟩
      else ⟨recs, some s, none⟩ := by
  simp only [extract_step_below]
  split_ifs with h1 h2 <;> simp_all

/-- The within-range loop body from the idle state (any carried previous
timestamp `pe`): opens exactly when `in_range` holds, and the carried
`_timestamp` becomes the current timestamp either way. -/
theorem step_between_idle (lb ub : ℚ) (st : Sample) (recs : List Window)
    (pe : Option ℚ) :
    extract_step_between lb ub ⟨recs, none, none, pe⟩ st =
      if in_range lb ub st.nT = true then
        ⟨recs, some st.timestamp, none, some st.timestamp⟩
      else ⟨recs, none, none, some st.timestamp⟩ := by
  simp only [extract_step_between]
  split_ifs with h1 h2 h3 <;> simp_all

/-- The within-range loop body from an open state whose carried `_timestamp`
is `p`: the first sample with `in_range` false closes the window with end `p`
(the PREVIOUS sample's timestamp). -/
theorem step_between_open (lb ub s p : ℚ) (st : Sample) (recs : List Window) :
    extract_step_between lb ub ⟨recs, some s, none, some p⟩ st =
      if in_range lb ub st.nT = false then
        ⟨recs ++ [⟨s, p⟩], none, none, some st.timestamp⟩
      else ⟨recs, some s, none, some st.timestamp⟩ := by
  simp only [extract_step_between]
  split_ifs with h1 h2 h3 <;> simp_all

/-! ## Scan lemmas: whole-series behaviour of the extractors -/

/-- Samples that never satisfy `nT > THRESHOLD` leave the idle above-threshold
scan unchanged. -/
theorem scan_above_idle (T : ℚ) (l : List Sample) :
    ∀ recs : List Window, (∀ x ∈ l, ¬ T < x.nT) →
      l.foldl (extract_step_above T) ⟨recs, none, none⟩ = ⟨recs, none, none⟩ := by
  induction l with
  | nil => intro recs _; rfl
  | cons x l ih =>
      intro recs h
      rw [List.foldl_cons, step_above_idle, if_neg (h x (by simp))]
      exact ih recs fun y hy => h y (by simp [hy])

/-- Samples that never satisfy `nT < THRESHOLD` keep an open above-threshold
window open: nothing is recorded. -/
theorem scan_above_open (T s : ℚ) (l : List Sample) :
    ∀ recs : List Window, (∀ x ∈ l, ¬ x.nT < T) →
      l.foldl (extract_step_above T) ⟨recs, some s, none⟩ = ⟨recs, some s, none⟩ := by
  induction l with
  | nil => intro recs _; rfl
  | cons x l ih =>
      intro recs h
      rw [List.foldl_cons, step_above_open, if_neg (h x (by simp))]
      exact ih recs fun y hy => h y (by simp [hy])

/-- Samples that never satisfy `nT < THRESHOLD` leave the idle below-threshold
scan unchanged. -/
theorem scan_below_idle (T : ℚ) (l : List Sample) :
    ∀ recs : List Window, (∀ x ∈ l, ¬ x.nT < T) →
      l.foldl (extract_step_below T) ⟨recs, none, none⟩ = ⟨recs, none, none⟩ := by
  induction l with
  | nil => intro recs _; rfl
  | cons x l ih =>
      intro recs h
      rw [List.foldl_cons, step_below_idle, if_neg (h x (by simp))]
      exact ih recs fun y hy => h y (by simp [hy])

/-- Samples that never satisfy `nT > THRESHOLD` keep an open below-threshold
window open: nothing is recorded. -/
theorem scan_below_open (T s : ℚ) (l : List Sample) :
    ∀ recs : List Window, (∀ x ∈ l, ¬ T < x.nT) →
      l.foldl (extract_step_below T) ⟨recs, some s, none⟩ = ⟨recs, some s, none⟩ := by
  induction l with
  | nil => intro recs _; rfl
  | cons x l ih =>
      intro recs h
      rw [List.foldl_cons, step_below_open, if_neg (h x (by simp))]
      exact ih recs fun y hy => h y (by simp [hy])

/-- Samples never in range leave the idle within-range scan idle (only the
carried previous timestamp moves). -/
theorem scan_between_idle (lb ub : ℚ) (l : List Sample) :
    ∀ (recs : List Window) (pe : Option ℚ), (∀ x ∈ l, in_range lb ub x.nT = false) →
      ∃ pe', l.foldl (extract_step_between lb ub) ⟨recs, none, none, pe⟩ =
        ⟨recs, none, none, pe'⟩ := by
  induction l with
  | nil => intro recs pe _; exact ⟨pe, rfl⟩
  | cons x l ih =>
      intro recs pe h
      rw [List.foldl_cons, step_between_idle, if_neg (by simp [h x (by simp)])]
      exact ih recs (some x.timestamp) fun y hy => h y (by simp [hy])

/-- Samples that stay in range keep an open within-range window open: nothing
is recorded. -/
theorem scan_between_open (lb ub s : ℚ) (l : List Sample) :
    ∀ (recs : List Window) (p : ℚ), (∀ x ∈ l, in_range lb ub x.nT = true) →
      ∃ p', l.foldl (extract_step_between lb ub) ⟨recs, some s, none, some p⟩ =
        ⟨recs, some s, none, some p'⟩ := by
  induction l with
  | nil => intro recs p _; exact ⟨p, rfl⟩
  | cons x l ih =>
      intro recs p h
      rw [List.foldl_cons, step_between_open, if_neg (by simp [h x (by simp)])]
      exact ih recs x.timestamp fun y hy => h y (by simp [hy])

/-- A sample whose value is exactly the threshold changes nothing in the
above-threshold scan (with `etime` clear, as it is at the top of every
iteration). -/
theorem step_above_inert (T : ℚ) (recs : List Window) (so : Option ℚ)
    (s : Sample) (hs : s.nT = T) :
    extract_step_above T ⟨recs, so, none⟩ s = ⟨recs, so, none⟩ := by
  cases so <;> simp [extract_step_above, hs]

/-- A sample whose value is exactly the threshold changes nothing in the
below-threshold scan. -/
theorem step_below_inert (T : ℚ) (recs : List Window) (so : Option ℚ)
    (s : Sample) (hs : s.nT = T) :
    extract_step_below T ⟨recs, so, none⟩ s = ⟨recs, so, none⟩ := by
  cases so <;> simp [extract_step_below, hs]

/-- A run of threshold-valued samples changes nothing in the above-threshold
scan. -/
theorem scan_above_inert (T : ℚ) (l : List Sample) :
    ∀ (recs : List Window) (so : Option ℚ), (∀ x ∈ l, x.nT = T) →
      l.foldl (extract_step_above T) ⟨recs, so, none⟩ = ⟨recs, so, none⟩ := by
  induction l with
  | nil => intro recs so _; rfl
  | cons x l ih =>
      intro recs so h
      rw [List.foldl_cons, step_above_inert T recs so x (h x (by simp))]
      exact ih recs so fun y hy => h y (by simp [hy])

/-- A run of threshold-valued samples changes nothing in the below-threshold
scan. -/
theorem scan_below_inert (T : ℚ) (l : List Sample) :
    ∀ (recs : List Window) (so : Option ℚ), (∀ x ∈ l, x.nT = T) →
      l.foldl (extract_step_below T) ⟨recs, so, none⟩ = ⟨recs, so, none⟩ := by
  induction l with
  | nil => intro recs so _; rfl
  | cons x l ih =>
      intro recs so h
      rw [List.foldl_cons, step_below_inert T recs so x (h x (by simp))]
      exact ih recs so fun y hy => h y (by simp [hy])

/-! ## Claims C1, C2, C6, C10: close guards and boundary policy -/

/-- C1, counterexample. The claim says every sample with value `<= THRESHOLD`
met while an above-threshold window is open closes that window, after which it
is emitted; on the series `[(0,15),(1,10),(2,5)]` with threshold 10 that would
close the window at the sample `(1,10)` and emit `{start=0, end=1}`. The code
closes only on values STRICTLY below the threshold, so the window stays open
through `(1,10)` and is emitted as `{start=0, end=2}`. -/
theorem claim_C1_counterexample :
    extract_timespan_above_nT_intensity [⟨0, 15⟩, ⟨1, 10⟩, ⟨2, 5⟩] 10 = [⟨0, 2⟩] ∧
    ([⟨0, 2⟩] : List Window) ≠ [⟨0, 1⟩] := by decide

/-- C1, amended. While a window is open (`stime` set, `etime` clear), the
within-range extractor does close it at the first sample whose value makes its
predicate false; but the above-threshold (resp. below-threshold) extractor
closes only at a sample with value strictly BELOW (resp. strictly ABOVE) the
threshold — a sample with value equal to the threshold, although it makes the
predicate false, does not close the window. In each case a closed window is
emitted at once and the state resets to idle. -/
theorem claim_C1_amended (T lb ub s t v p : ℚ) (recs : List Window) :
    (extract_step_above T ⟨recs, some s, none⟩ ⟨t, v⟩ =
      if v < T then ⟨recs ++ [⟨s, t⟩], none, none⟩ else ⟨recs, some s, none⟩) ∧
    (extract_step_below T ⟨recs, some s, none⟩ ⟨t, v⟩ =
      if T < v then ⟨recs ++ [⟨s, t⟩], none, none⟩ else ⟨recs, some s, none⟩) ∧
    (extract_step_between lb ub ⟨recs, some s, none, some p⟩ ⟨t, v⟩ =
      if in_range lb ub v = false then ⟨recs ++ [⟨s, p⟩], none, none, some t⟩
      else ⟨recs, some s, none, some t⟩) :=
  ⟨by rw [step_above_open], by rw [step_below_open], by rw [step_between_open]⟩

/-- C2, confirmed. When a closing sample arrives, the above- and
below-threshold extractors record the window end as the CURRENT sample's
timestamp `t` (boundary policy (a)), whereas the within-range extractor
records the end as the PREVIOUS sample's timestamp — the loop-carried
`_timestamp` value `p` (boundary policy (b)). -/
theorem claim_C2 (T lb ub s t va vb vc p : ℚ) (recs : List Window)
    (ha : va < T) (hb : T < vb) (hc : in_range lb ub vc = false) :
    extract_step_above T ⟨recs, some s, none⟩ ⟨t, va⟩ =
      ⟨recs ++ [⟨s, t⟩], none, none⟩ ∧
    extract_step_below T ⟨recs, some s, none⟩ ⟨t, vb⟩ =
      ⟨recs ++ [⟨s, t⟩], none, none⟩ ∧
    extract_step_between lb ub ⟨recs, some s, none, some p⟩ ⟨t, vc⟩ =
      ⟨recs ++ [⟨s, p⟩], none, none, some t⟩ :=
  ⟨by rw [step_above_open]; exact if_pos ha,
   by rw [step_below_open]; exact if_pos hb,
   by rw [step_between_open]; exact if_pos hc⟩

/-- Witness for C2 at threshold 10 (closing values 5 and 15) and range
`[0, 3]` (closing value 7, previous timestamp 1/2). -/
theorem claim_C2_witness :
    extract_step_above 10 ⟨[], some 0, none⟩ ⟨1, 5⟩ = ⟨[⟨0, 1⟩], none, none⟩ ∧
    extract_step_below 10 ⟨[], some 0, none⟩ ⟨1, 15⟩ = ⟨[⟨0, 1⟩], none, none⟩ ∧
    extract_step_between 0 3 ⟨[], some 0, none, some (1/2)⟩ ⟨1, 7⟩ =
      ⟨[⟨0, 1/2⟩], none, none, some 1⟩ :=
  claim_C2 10 0 3 0 1 5 15 7 (1/2) [] (by norm_num) (by norm_num) (by norm_num [in_range])

/-- C6, confirmed. On the series `[(t0,5),(t1,15),(t2,20),(t3,8),(t4,3)]` with
threshold 10, the above-threshold extractor returns exactly one window,
`{start=t1, end=t3}` — for arbitrary timestamps `t0 … t4`. -/
theorem claim_C6 (t0 t1 t2 t3 t4 : ℚ) :
    extract_timespan_above_nT_intensity
      [⟨t0, 5⟩, ⟨t1, 15⟩, ⟨t2, 20⟩, ⟨t3, 8⟩, ⟨t4, 3⟩] 10 = [⟨t1, t3⟩] := by
  norm_num [extract_timespan_above_nT_intensity, step_above_idle, step_above_open]

/-- C10, confirmed. For the above- and below-threshold extractors a sample
whose value equals the threshold exactly leaves the scan state unchanged (in
any state with `etime` clear, as holds at the top of every iteration): it
neither opens a new window nor closes an open one, and a whole run of
threshold-valued samples leaves the state unchanged, so an open window stays
open across it. -/
theorem claim_C10 (T : ℚ) (recs : List Window) (so : Option ℚ) (t : ℚ)
    (l : List Sample) (hl : ∀ x ∈ l, x.nT = T) :
    extract_step_above T ⟨recs, so, none⟩ ⟨t, T⟩ = ⟨recs, so, none⟩ ∧
    extract_step_below T ⟨recs, so, none⟩ ⟨t, T⟩ = ⟨recs, so, none⟩ ∧
    l.foldl (extract_step_above T) ⟨recs, so, none⟩ = ⟨recs, so, none⟩ ∧
    l.foldl (extract_step_below T) ⟨recs, so, none⟩ = ⟨recs, so, none⟩ :=
  ⟨step_above_inert T recs so ⟨t, T⟩ rfl,
   step_below_inert T recs so ⟨t, T⟩ rfl,
   scan_above_inert T l recs so hl,
   scan_below_inert T l recs so hl⟩

/-- Witness for C10: threshold 10, an open window started at time 0, and a run
of two threshold-valued samples. -/
theorem claim_C10_witness :
    extract_step_above 10 ⟨[], some 0, none⟩ ⟨5, 10⟩ = ⟨[], some 0, none⟩ ∧
    extract_step_below 10 ⟨[], some 0, none⟩ ⟨5, 10⟩ = ⟨[], some 0, none⟩ ∧
    List.foldl (extract_step_above 10) ⟨[], some 0, none⟩ [⟨1, 10⟩, ⟨2, 10⟩] =
      ⟨[], some 0, none⟩ ∧
    List.foldl (extract_step_below 10) ⟨[], some 0, none⟩ [⟨1, 10⟩, ⟨2, 10⟩] =
      ⟨[], some 0, none⟩ :=
  claim_C10 10 [] (some 0) 5 [⟨1, 10⟩, ⟨2, 10⟩] (by decide)

/-! ## Claim C7: only fully matched windows are emitted -/

/-- C7, confirmed. Each extractor emits only fully matched start/end pairs:
it returns the empty sequence on the empty series; on every series whose
samples never satisfy the predicate (`l1`/`l2`/`l3` per extractor); and on
every series where the predicate becomes true at some sample `s*` and never
false again before the series ends (`a* ++ s* :: b*` per extractor) — the
unmatched trailing start is dropped, never emitted as a half-open window. -/
theorem claim_C7 (T lb ub : ℚ)
    (l1 l2 l3 : List Sample)
    (h1 : ∀ x ∈ l1, ¬ T < x.nT)
    (h2 : ∀ x ∈ l2, ¬ x.nT < T)
    (h3 : ∀ x ∈ l3, in_range lb ub x.nT = false)
    (a1 : List Sample) (s1 : Sample) (b1 : List Sample)
    (ha1 : ∀ x ∈ a1, ¬ T < x.nT) (hs1 : T < s1.nT) (hb1 : ∀ x ∈ b1, T < x.nT)
    (a2 : List Sample) (s2 : Sample) (b2 : List Sample)
    (ha2 : ∀ x ∈ a2, ¬ x.nT < T) (hs2 : s2.nT < T) (hb2 : ∀ x ∈ b2, x.nT < T)
    (a3 : List Sample) (s3 : Sample) (b3 : List Sample)
    (ha3 : ∀ x ∈ a3, in_range lb ub x.nT = false)
    (hs3 : in_range lb ub s3.nT = true)
    (hb3 : ∀ x ∈ b3, in_range lb ub x.nT = true) :
    extract_timespan_above_nT_intensity [] T = [] ∧
    extract_timespan_below_nT_intensity [] T = [] ∧
    extract_timespan_between_nT_intensity [] lb ub = [] ∧
    extract_timespan_above_nT_intensity l1 T = [] ∧
    extract_timespan_below_nT_intensity l2 T = [] ∧
    extract_timespan_between_nT_intensity l3 lb ub = [] ∧
    extract_timespan_above_nT_intensity (a1 ++ s1 :: b1) T = [] ∧
    extract_timespan_below_nT_intensity (a2 ++ s2 :: b2) T = [] ∧
    extract_timespan_between_nT_intensity (a3 ++ s3 :: b3) lb ub = [] := by
  refine ⟨rfl, rfl, rfl, ?_, ?_, ?_, ?_, ?_, ?_⟩
  · rw [extract_timespan_above_nT_intensity, scan_above_idle T l1 [] h1]
  · rw [extract_timespan_below_nT_intensity, scan_below_idle T l2 [] h2]
  · rw [extract_timespan_between_nT_intensity]
    obtain ⟨pe', hpe⟩ := scan_between_idle lb ub l3 [] none h3
    rw [hpe]
  · rw [extract_timespan_above_nT_intensity, List.foldl_append,
      scan_above_idle T a1 [] ha1, List.foldl_cons, step_above_idle,
      if_pos hs1, scan_above_open T s1.timestamp b1 []
        fun y hy => not_lt.mpr (le_of_lt (hb1 y hy))]
  · rw [extract_timespan_below_nT_intensity, List.foldl_append,
      scan_below_idle T a2 [] ha2, List.foldl_cons, step_below_idle,
      if_pos hs2, scan_below_open T s2.timestamp b2 []
        fun y hy => not_lt.mpr (le_of_lt (hb2 y hy))]
  · rw [extract_timespan_between_nT_intensity, List.foldl_append]
    obtain ⟨pe', hpe⟩ := scan_between_idle lb ub a3 [] none ha3
    rw [hpe, List.foldl_cons, step_between_idle, if_pos hs3]
    obtain ⟨p', hp⟩ := scan_between_open lb ub s3.timestamp b3 [] s3.timestamp hb3
    rw [hp]

/-- Witness for C7: threshold 10 and range `[0, 3]`, with concrete series for
each of the six non-empty cases. -/
theorem claim_C7_witness :
    extract_timespan_above_nT_intensity [] 10 = [] ∧
    extract_timespan_below_nT_intensity [] 10 = [] ∧
    extract_timespan_between_nT_intensity [] 0 3 = [] ∧
    extract_timespan_above_nT_intensity [⟨0, 10⟩] 10 = [] ∧
    extract_timespan_below_nT_intensity [⟨0, 10⟩] 10 = [] ∧
    extract_timespan_between_nT_intensity [⟨0, 5⟩] 0 3 = [] ∧
    extract_timespan_above_nT_intensity [⟨0, 5⟩, ⟨1, 15⟩, ⟨2, 20⟩] 10 = [] ∧
    extract_timespan_below_nT_intensity [⟨0, 15⟩, ⟨1, 5⟩, ⟨2, 3⟩] 10 = [] ∧
    extract_timespan_between_nT_intensity [⟨0, 5⟩, ⟨1, 2⟩, ⟨2, 1⟩] 0 3 = [] :=
  claim_C7 10 0 3 [⟨0, 10⟩] [⟨0, 10⟩] [⟨0, 5⟩]
    (by decide) (by decide) (by decide)
    [⟨0, 5⟩] ⟨1, 15⟩ [⟨2, 20⟩] (by decide) (by decide) (by decide)
    [⟨0, 15⟩] ⟨1, 5⟩ [⟨2, 3⟩] (by decide) (by decide) (by decide)
    [⟨0, 5⟩] ⟨1, 2⟩ [⟨2, 1⟩] (by decide) (by decide) (by decide)

/-! ## Merge lemmas -/

/-- `Covers` is reflexive. -/
theorem covers_refl (w : Window) : Covers w w := ⟨le_refl _, le_refl _⟩

/-- `Covers` is transitive. -/
theorem covers_trans {a b c : Window} (h1 : Covers a b) (h2 : Covers b c) :
    Covers a c := ⟨le_trans h1.1 h2.1, le_trans h2.2 h1.2⟩

/-- The first fold step of `merge_window` on a valid window with a positive
gap: append once, and the self-comparison is a no-op. -/
theorem merge_step_nil (g : ℚ) (w : Window) (hvw : Valid w) (hg : 0 < g) :
    merge_step g [] w = [w] := by
  simp only [merge_step]
  rw [if_pos]
  simp only [Valid] at hvw
  linarith

/-- Folding the merge loop over windows already separated by at least `g`
days appends each one: the loop is the identity on its own output. -/
theorem merge_fold_gap_chain (g : ℚ) (l : List Window) :
    ∀ (h : Window) (rest : List Window), (h :: l).Chain' (gap_ge g) →
      l.foldl (merge_step g) (h :: rest) = l.reverse ++ h :: rest := by
  induction l with
  | nil => intro h rest _; rfl
  | cons w l ih =>
      intro h rest hc
      have hgap : gap_ge g h w := (List.chain'_cons.mp hc).1
      have hstep : merge_step g (h :: rest) w = w :: h :: rest := by
        simp only [merge_step]
        rw [if_neg (not_lt.mpr hgap)]
      rw [List.foldl_cons, hstep, ih w (h :: rest) (List.chain'_cons.mp hc).2]
      simp

/-- `merge_window` is the identity on a sequence of valid windows whose
consecutive members are at least `g` days apart, for `g > 0`. -/
theorem merge_window_of_gap_chain (g : ℚ) (hg : 0 < g) (l : List Window)
    (hv : ∀ w ∈ l, Valid w) (hc : l.Chain' (gap_ge g)) :
    merge_window l g = l := by
  cases l with
  | nil => rfl
  | cons h t =>
      rw [merge_window, List.foldl_cons,
        merge_step_nil g h (hv h (by simp)) hg,
        merge_fold_gap_chain g t h [] hc]
      simp

/-- Invariant of the merge fold over input sorted ascending by start time with
valid windows: every accumulated window is valid and consecutive accumulated
windows (the accumulator is reversed, head = most recent) are at least `g`
days apart. -/
theorem merge_fold_sorted (g : ℚ) (l : List Window) :
    ∀ (h : Window) (rest : List Window),
      (∀ w ∈ l, Valid w) → l.Pairwise start_le →
      (∀ w ∈ l, h.STARTTIME ≤ w.STARTTIME) → Valid h →
      (∀ w ∈ rest, Valid w) →
      (h :: rest).Chain' (flip (gap_ge g)) →
      (∀ w ∈ l.foldl (merge_step g) (h :: rest), Valid w) ∧
      (l.foldl (merge_step g) (h :: rest)).Chain' (flip (gap_ge g)) := by
  induction l with
  | nil =>
      intro h rest _ _ _ hvh hvr hcacc
      refine ⟨?_, hcacc⟩
      intro w hw
      rcases List.mem_cons.mp hw with rfl | hw
      · exact hvh
      · exact hvr w hw
  | cons w l ih =>
      intro h rest hv hs hle hvh hvr hcacc
      have hvw : Valid w := hv w (by simp)
      have hlew : h.STARTTIME ≤ w.STARTTIME := hle w (by simp)
      rw [List.foldl_cons]
      by_cases hlt : w.STARTTIME - h.ENDTIME < g
      · have hstep : merge_step g (h :: rest) w =
            ⟨h.STARTTIME, w.ENDTIME⟩ :: rest := by
          simp only [merge_step]
          rw [if_pos hlt]
        rw [hstep]
        refine ih ⟨h.STARTTIME, w.ENDTIME⟩ rest (fun y hy => hv y (by simp [hy]))
          (List.pairwise_cons.mp hs).2
          (fun y hy => le_trans hlew ((List.pairwise_cons.mp hs).1 y hy)) ?_ hvr ?_
        · exact le_trans hlew hvw
        · rw [List.chain'_cons']
          exact ⟨fun b hb => (List.chain'_cons'.mp hcacc).1 b hb,
            (List.chain'_cons'.mp hcacc).2⟩
      · have hstep : merge_step g (h :: rest) w = w :: h :: rest := by
          simp only [merge_step]
          rw [if_neg hlt]
        rw [hstep]
        refine ih w (h :: rest) (fun y hy => hv y (by simp [hy]))
          (List.pairwise_cons.mp hs).2
          (fun y hy => (List.pairwise_cons.mp hs).1 y hy) hvw ?_ ?_
        · intro y hy
          rcases List.mem_cons.mp hy with rfl | hy
          · exact hvh
          · exact hvr y hy
        · rw [List.chain'_cons']
          exact ⟨fun b hb => by
            simp only [List.head?_cons, Option.mem_def, Option.some.injEq] at hb
            subst hb
            exact not_lt.mp hlt, hcacc⟩

/-- On input sorted ascending by start time with valid windows and a positive
gap, every output window of `merge_window` is valid and consecutive output
windows are at least `g` days apart. -/
theorem merge_window_sorted (g : ℚ) (hg : 0 < g) (l : List Window)
    (hv : ∀ w ∈ l, Valid w) (hs : l.Pairwise start_le) :
    (∀ w ∈ merge_window l g, Valid w) ∧
    (merge_window l g).Chain' (gap_ge g) := by
  cases l with
  | nil => exact ⟨by simp [merge_window], by simp [merge_window]⟩
  | cons h t =>
      rw [merge_window, List.foldl_cons, merge_step_nil g h (hv h (by simp)) hg]
      obtain ⟨hval, hchain⟩ := merge_fold_sorted g t h []
        (fun y hy => hv y (by simp [hy])) (List.pairwise_cons.mp hs).2
        (fun y hy => (List.pairwise_cons.mp hs).1 y hy) (hv h (by simp))
        (by simp) (by simp)
      refine ⟨fun w hw => hval w (by simpa using hw), ?_⟩
      rw [List.chain'_reverse]
      exact hchain

/-- Invariant of the merge fold over disjoint input (consecutive windows
chained end-before-start, as the extractors produce): besides validity and the
`g`-day separation, every processed input window and the initial head stay
covered by some accumulated window, and the part of the accumulator below the
head is never touched. -/
theorem merge_fold_chained (g : ℚ) (l : List Window) :
    ∀ (h : Window) (rest : List Window),
      (∀ w ∈ l, Valid w) → l.Chain' chained →
      (∀ w ∈ l.head?, h.ENDTIME ≤ w.STARTTIME) →
      Valid h → (∀ w ∈ rest, Valid w) →
      (h :: rest).Chain' (flip (gap_ge g)) →
      (∀ w ∈ l.foldl (merge_step g) (h :: rest), Valid w) ∧
      (l.foldl (merge_step g) (h :: rest)).Chain' (flip (gap_ge g)) ∧
      (∀ w ∈ l, ∃ W ∈ l.foldl (merge_step g) (h :: rest), Covers W w) ∧
      (∃ W ∈ l.foldl (merge_step g) (h :: rest), Covers W h) ∧
      (∃ pre, l.foldl (merge_step g) (h :: rest) = pre ++ rest) := by
  induction l with
  | nil =>
      intro h rest _ _ _ hvh hvr hcacc
      refine ⟨?_, hcacc, by simp, ⟨h, by simp, covers_refl h⟩, ⟨[h], rfl⟩⟩
      intro w hw
      rcases List.mem_cons.mp hw with rfl | hw
      · exact hvh
      · exact hvr w hw
  | cons w l ih =>
      intro h rest hv hc hlink hvh hvr hcacc
      have hvw : Valid w := hv w (by simp)
      have hhw : h.ENDTIME ≤ w.STARTTIME := hlink w (by simp)
      have hsw : h.STARTTIME ≤ w.STARTTIME := le_trans hvh hhw
      rw [List.foldl_cons]
      by_cases hlt : w.STARTTIME - h.ENDTIME < g
      · have hstep : merge_step g (h :: rest) w =
            ⟨h.STARTTIME, w.ENDTIME⟩ :: rest := by
          simp only [merge_step]
          rw [if_pos hlt]
        rw [hstep]
        obtain ⟨ha, hb, hcov, hhd, hpre⟩ := ih ⟨h.STARTTIME, w.ENDTIME⟩ rest
          (fun y hy => hv y (by simp [hy])) (List.chain'_cons'.mp hc).2
          (fun y hy => (List.chain'_cons'.mp hc).1 y hy)
          (le_trans hsw hvw) hvr
          (by
            rw [List.chain'_cons']
            exact ⟨fun b hb => (List.chain'_cons'.mp hcacc).1 b hb,
              (List.chain'_cons'.mp hcacc).2⟩)
        have hcovh2w : Covers ⟨h.STARTTIME, w.ENDTIME⟩ w := ⟨hsw, le_refl _⟩
        have hcovh2h : Covers ⟨h.STARTTIME, w.ENDTIME⟩ h :=
          ⟨le_refl _, le_trans hhw hvw⟩
        refine ⟨ha, hb, ?_, ?_, hpre⟩
        · intro y hy
          rcases List.mem_cons.mp hy with rfl | hy
          · obtain ⟨W, hW, hWc⟩ := hhd
            exact ⟨W, hW, covers_trans hWc hcovh2w⟩
          · exact hcov y hy
        · obtain ⟨W, hW, hWc⟩ := hhd
          exact ⟨W, hW, covers_trans hWc hcovh2h⟩
      · have hstep : merge_step g (h :: rest) w = w :: h :: rest := by
          simp only [merge_step]
          rw [if_neg hlt]
        rw [hstep]
        obtain ⟨ha, hb, hcov, hhd, hpre⟩ := ih w (h :: rest)
          (fun y hy => hv y (by simp [hy])) (List.chain'_cons'.mp hc).2
          (fun y hy => (List.chain'_cons'.mp hc).1 y hy) hvw
          (by
            intro y hy
            rcases List.mem_cons.mp hy with rfl | hy
            · exact hvh
            · exact hvr y hy)
          (by
            rw [List.chain'_cons']
            refine ⟨fun b hb => ?_, hcacc⟩
            simp only [List.head?_cons, Option.mem_def, Option.some.injEq] at hb
            subst hb
            exact not_lt.mp hlt)
        obtain ⟨pre, hpre'⟩ := hpre
        refine ⟨ha, hb, ?_, ?_, ⟨pre ++ [h], by simp [hpre']⟩⟩
        · intro y hy
          rcases List.mem_cons.mp hy with rfl | hy
          · exact hhd
          · exact hcov y hy
        · refine ⟨h, ?_, covers_refl h⟩
          rw [hpre']
          simp

/-! ## Claims C3, C4, C5: the merger -/

/-- C3, counterexample. The claim quantifies over ALL inputs sorted ascending
by start time; on the sorted but overlapping input `[{0,10},{1,2}]` with gap 1
the code merges (time difference `1 - 10 = -9 < 1`) and OVERWRITES the
accumulated end `10` with the earlier end `2`: the single output window
`{0,2}` is not a superset of the input window `{0,10}`, and the accumulated
end moved backwards from `10` to `2`. -/
theorem claim_C3_counterexample :
    start_le ⟨0, 10⟩ ⟨1, 2⟩ ∧
    merge_window [⟨0, 10⟩, ⟨1, 2⟩] 1 = [⟨0, 2⟩] ∧
    ¬ Covers ⟨0, 2⟩ ⟨0, 10⟩ := by
  refine ⟨by decide, ?_, by decide⟩
  norm_num [merge_window, merge_step]

/-- C3, amended. For input whose consecutive windows are disjoint in time
(`chained`, as the extractors produce, which implies sorted by start), with
valid windows and a positive gap `g`: the output windows are valid,
consecutive output windows are at least `g` days apart (hence disjoint and
time-ordered), every input window is covered by some output window (each
output is a superset of the inputs merged into it), and each fold step either
appends the next window unchanged or keeps the accumulated window's start and
moves its end FORWARD to the next window's end — on merely start-sorted but
overlapping input the end can move backwards, as the counterexample shows. -/
theorem claim_C3_amended (g : ℚ) (hg : 0 < g) (l : List Window)
    (hv : ∀ w ∈ l, Valid w) (hc : l.Chain' chained) :
    (∀ w ∈ merge_window l g, Valid w) ∧
    (merge_window l g).Chain' (gap_ge g) ∧
    (∀ w ∈ l, ∃ W ∈ merge_window l g, Covers W w) ∧
    (∀ (h : Window) (rest : List Window) (w : Window), Valid w → chained h w →
      merge_step g (h :: rest) w = w :: h :: rest ∨
      (merge_step g (h :: rest) w = ⟨h.STARTTIME, w.ENDTIME⟩ :: rest ∧
        h.ENDTIME ≤ w.ENDTIME)) := by
  have hstep : ∀ (h : Window) (rest : List Window) (w : Window), Valid w →
      chained h w →
      merge_step g (h :: rest) w = w :: h :: rest ∨
      (merge_step g (h :: rest) w = ⟨h.STARTTIME, w.ENDTIME⟩ :: rest ∧
        h.ENDTIME ≤ w.ENDTIME) := by
    intro h rest w hvw hch
    by_cases hlt : w.STARTTIME - h.ENDTIME < g
    · refine Or.inr ⟨by simp only [merge_step]; rw [if_pos hlt], ?_⟩
      exact le_trans hch hvw
    · exact Or.inl (by simp only [merge_step]; rw [if_neg hlt])
  cases l with
  | nil =>
      exact ⟨by simp [merge_window], by simp [merge_window], by simp, hstep⟩
  | cons h t =>
      rw [merge_window, List.foldl_cons, merge_step_nil g h (hv h (by simp)) hg]
      obtain ⟨ha, hb, hcov, hhd, _⟩ := merge_fold_chained g t h []
        (fun y hy => hv y (by simp [hy])) (List.chain'_cons'.mp hc).2
        (fun y hy => (List.chain'_cons'.mp hc).1 y hy) (hv h (by simp))
        (by simp) (by simp)
      refine ⟨fun w hw => ha w (by simpa using hw), ?_, ?_, hstep⟩
      · rw [List.chain'_reverse]
        exact hb
      · intro y hy
        rcases List.mem_cons.mp hy with rfl | hy
        · obtain ⟨W, hW, hWc⟩ := hhd
          exact ⟨W, by simpa using hW, hWc⟩
        · obtain ⟨W, hW, hWc⟩ := hcov y hy
          exact ⟨W, by simpa using hW, hWc⟩

/-- Witness for C3 at gap 1 on the disjoint valid input `[{0,1},{5,6}]`. -/
theorem claim_C3_amended_witness :
    (∀ w ∈ merge_window [⟨0, 1⟩, ⟨5, 6⟩] 1, Valid w) ∧
    (merge_window [⟨0, 1⟩, ⟨5, 6⟩] 1).Chain' (gap_ge 1) ∧
    (∀ w ∈ ([⟨0, 1⟩, ⟨5, 6⟩] : List Window),
      ∃ W ∈ merge_window [⟨0, 1⟩, ⟨5, 6⟩] 1, Covers W w) ∧
    (∀ (h : Window) (rest : List Window) (w : Window), Valid w → chained h w →
      merge_step 1 (h :: rest) w = w :: h :: rest ∨
      (merge_step 1 (h :: rest) w = ⟨h.STARTTIME, w.ENDTIME⟩ :: rest ∧
        h.ENDTIME ≤ w.ENDTIME)) :=
  claim_C3_amended 1 (by norm_num) [⟨0, 1⟩, ⟨5, 6⟩] (by decide)
    (by norm_num [List.chain'_cons, chained])

/-- C4, counterexample. The claim quantifies over EVERY gap parameter; at gap
0 a single degenerate window `{0,0}` is DUPLICATED (the first event is
appended, then compared against itself: `0 - 0 = 0 < 0` is false, so it is
appended again), and at table level merging an empty window table fails with a
`KeyError` (the re-built frame of zero records has no `STARTTIME`/`ENDTIME`
columns to subtract), rather than returning the input unchanged. -/
theorem claim_C4_counterexample :
    merge_window [⟨0, 0⟩] 0 = [⟨0, 0⟩, ⟨0, 0⟩] ∧
    ([⟨0, 0⟩, ⟨0, 0⟩] : List Window) ≠ [⟨0, 0⟩] ∧
    merge_window_tbl ⟨[], some []⟩ 5 = (⟨[], none⟩, .error .keyError) := by
  refine ⟨?_, by decide, rfl⟩
  norm_num [merge_window, merge_step]

/-- C4, amended. `merge_window` on zero windows yields zero windows, and on
exactly one window `w` it returns `[w]` unchanged PROVIDED the self-comparison
of the first event passes: `w.STARTTIME - w.ENDTIME < days` — which holds for
every valid window (`start <= end`) whenever `days > 0`, but fails e.g. for a
degenerate window at gap 0, where the window is duplicated instead. -/
theorem claim_C4_amended (d : ℚ) (w : Window) (h : w.STARTTIME - w.ENDTIME < d) :
    merge_window [] d = [] ∧ merge_window [w] d = [w] := by
  refine ⟨rfl, ?_⟩
  rw [merge_window, List.foldl_cons]
  have hstep : merge_step d [] w = [w] := by
    simp only [merge_step]
    rw [if_pos h]
  rw [hstep]
  rfl

/-- Witness for C4 at gap 1 with the single valid window `{0,0}`. -/
theorem claim_C4_amended_witness :
    merge_window [] 1 = [] ∧ merge_window [⟨0, 0⟩] 1 = [⟨0, 0⟩] :=
  claim_C4_amended 1 ⟨0, 0⟩ (by norm_num)

/-- C5, counterexample. The claim quantifies over every gap `g >= 0`; at
`g = 0` with the sorted singleton `[{0,0}]` the first merge duplicates the
degenerate window and the second merge triplicates it, so
`merge(merge(w,g),g) != merge(w,g)`. -/
theorem claim_C5_counterexample :
    merge_window [⟨0, 0⟩] 0 = [⟨0, 0⟩, ⟨0, 0⟩] ∧
    merge_window (merge_window [⟨0, 0⟩] 0) 0 = [⟨0, 0⟩, ⟨0, 0⟩, ⟨0, 0⟩] ∧
    ([⟨0, 0⟩, ⟨0, 0⟩, ⟨0, 0⟩] : List Window) ≠ [⟨0, 0⟩, ⟨0, 0⟩] := by
  refine ⟨?_, ?_, by decide⟩ <;> norm_num [merge_window, merge_step]

/-- C5, amended. `merge_window` is idempotent for every STRICTLY positive gap
`g > 0` on input sorted ascending by start whose windows are valid
(`start <= end`): `merge(merge(w, g), g) = merge(w, g)`. (At `g = 0` a
degenerate window defeats idempotence, as the counterexample shows.) -/
theorem claim_C5_amended (g : ℚ) (hg : 0 < g) (l : List Window)
    (hv : ∀ w ∈ l, Valid w) (hs : l.Pairwise start_le) :
    merge_window (merge_window l g) g = merge_window l g := by
  obtain ⟨hvO, hcO⟩ := merge_window_sorted g hg l hv hs
  exact merge_window_of_gap_chain g hg _ hvO hcO

/-- Witness for C5 at gap 2 on the sorted valid input `[{0,1},{10,11}]`. -/
theorem claim_C5_amended_witness :
    merge_window (merge_window [⟨0, 1⟩, ⟨10, 11⟩] 2) 2 =
      merge_window [⟨0, 1⟩, ⟨10, 11⟩] 2 :=
  claim_C5_amended 2 (by norm_num) [⟨0, 1⟩, ⟨10, 11⟩] (by decide) (by decide)

/-! ## Claims C8, C9: frame conditions and (absent) validation -/

/-- C8, counterexample. The claim says that after `merge` the input window
table is unchanged, including its duration column; but `merge_window` begins
with `del df[DST.DURATION_HOURS]`, mutating the caller's DataFrame in place:
merging the one-window table with durations `[24]` leaves the input with its
`DURATION_HOURS` column DELETED. -/
theorem claim_C8_counterexample :
    (merge_window_tbl ⟨[⟨0, 1⟩], some [24]⟩ 5).1 = ⟨[⟨0, 1⟩], none⟩ ∧
    (⟨[⟨0, 1⟩], none⟩ : WindowTable) ≠ ⟨[⟨0, 1⟩], some [24]⟩ :=
  ⟨rfl, by decide⟩

/-- C8, amended. The output of the table-level merge is a fresh frame built
only from the values of the input's window rows (`pd.DataFrame.from_dict` of
newly created record dicts, then the duration column), so output records do
not alias input storage; but the input table is NOT left unchanged: whenever
its `DURATION_HOURS` column exists, `merge_window` deletes that column from
the caller's frame in place, leaving the input as its bare start/end rows. -/
theorem claim_C8_amended (df : WindowTable) (days : ℚ) (h : df.durations ≠ none) :
    (merge_window_tbl df days).1 = ⟨df.rows, none⟩ ∧
    (merge_window_tbl df days).2 =
      add_window_duration (merge_window df.rows days)
        (!(merge_window df.rows days).isEmpty) := by
  obtain ⟨rows, durs⟩ := df
  cases durs with
  | none => exact absurd rfl h
  | some d => exact ⟨rfl, rfl⟩

/-- Witness for C8 on the one-window table with duration column `[24]`. -/
theorem claim_C8_amended_witness :
    (merge_window_tbl ⟨[⟨0, 1⟩], some [24]⟩ 5).1 = ⟨[⟨0, 1⟩], none⟩ ∧
    (merge_window_tbl ⟨[⟨0, 1⟩], some [24]⟩ 5).2 =
      add_window_duration (merge_window [⟨0, 1⟩] 5)
        (!(merge_window [⟨0, 1⟩] 5).isEmpty) :=
  claim_C8_amended ⟨[⟨0, 1⟩], some [24]⟩ 5 (by decide)

/-- C9, counterexample. No `InvariantViolation` (or any validation at all)
exists in the code: on the UNSORTED series `[(5,15),(2,3)]` with threshold 10
the above-threshold extractor silently returns the window `{start=5, end=2}`
with `start > end`, and on the start-sorted but overlapping window input
`[{100,200},{0,1}]` with gap 1 the merger silently returns `{start=100,
end=1}` with `start > end` — the operations are never rejected. -/
theorem claim_C9_counterexample :
    extract_timespan_above_nT_intensity [⟨5, 15⟩, ⟨2, 3⟩] 10 = [⟨5, 2⟩] ∧
    ¬ Valid (⟨5, 2⟩ : Window) ∧
    merge_window [⟨100, 200⟩, ⟨0, 1⟩] 1 = [⟨100, 1⟩] ∧
    ¬ Valid (⟨100, 1⟩ : Window) := by
  refine ⟨by decide, by decide, ?_, by decide⟩
  norm_num [merge_window, merge_step]

/-- C9, amended. The core never rejects its input: the extractors record
whatever timestamps open and close a window, in input order and without any
sortedness or `start <= end` check — two samples crossing the threshold yield
the window of their two timestamps even when those are out of order — and the
merge loop overwrites the accumulated end with the incoming window's end
whenever the time difference is below the gap, with no validity check. Both
return normally (total functions); incorrect windows are produced silently
rather than rejected. -/
theorem claim_C9_amended (T t1 v1 t2 v2 g : ℚ) (a b : Window)
    (h1 : T < v1) (h2 : v2 < T) (hab : b.STARTTIME - a.ENDTIME < g)
    (hsa : a.STARTTIME - a.ENDTIME < g) :
    extract_timespan_above_nT_intensity [⟨t1, v1⟩, ⟨t2, v2⟩] T = [⟨t1, t2⟩] ∧
    merge_window [a, b] g = [⟨a.STARTTIME, b.ENDTIME⟩] := by
  constructor
  · rw [extract_timespan_above_nT_intensity, List.foldl_cons, step_above_idle,
      if_pos h1, List.foldl_cons, step_above_open, if_pos h2]
    rfl
  · rw [merge_window, List.foldl_cons]
    have hs1 : merge_step g [] a = [a] := by
      simp only [merge_step]
      rw [if_pos hsa]
    have hs2 : merge_step g [a] b = [⟨a.STARTTIME, b.ENDTIME⟩] := by
      simp only [merge_step]
      rw [if_pos hab]
    rw [hs1, List.foldl_cons, hs2]
    rfl

/-- Witness for C9: the unsorted series and overlapping windows of the
counterexample, on which the silently produced windows have `start > end`. -/
theorem claim_C9_amended_witness :
    extract_timespan_above_nT_intensity [⟨5, 15⟩, ⟨2, 3⟩] 10 = [⟨5, 2⟩] ∧
    merge_window [⟨100, 200⟩, ⟨0, 1⟩] 1 = [⟨100, 1⟩] :=
  claim_C9_amended 10 5 15 2 3 1 ⟨100, 200⟩ ⟨0, 1⟩
    (by norm_num) (by norm_num) (by norm_num) (by norm_num)
